import Mathlib

/-!
# Verification of `context_generator.py`

A shallow embedding of the context-generator CLI
(`src/use-cases/resource-prioritization/python/src/context_generator.py`):
a tool that fills a Jinja2 template with data loaded from JSON or YAML.

The embedding models:

* the structured data values produced by decoding (`JValue`),
* the `OptionalUndefined` marker class and its operations,
* the `to_json` custom filter (`json.dumps(v, indent, ensure_ascii=False)`),
* a model of Python's `json.loads` (recursive-descent parser with fuel),
* the configured Jinja2 engine (template AST, strict/lenient evaluation),
* `load_data`, and the `main` pipeline (`runMain`) with its output routing.

Machine strings are `List Char`; Python exceptions are `Except`; the process
outcome (exit code, stdout, stderr, file writes) is an explicit record.
-/

set_option maxHeartbeats 1000000

/-- Structured Value (§3 of the design): the decoded data payload.
Numbers are modelled as integers (the data files exercised by the tool use
integral numbers; floating point is outside the model).  Mappings are
insertion-ordered association lists, as Python dicts are. -/
inductive JValue : Type where
  | null : JValue
  | bool (b : Bool) : JValue
  | int (n : Int) : JValue
  | str (s : List Char) : JValue
  | arr (xs : List JValue) : JValue
  | obj (kvs : List (List Char × JValue)) : JValue

/-- A value flowing through the rendering engine: either a decoded value or
the Undefined Marker produced by lenient resolution of a missing lookup. -/
inductive RValue : Type where
  | undef : RValue
  | val (v : JValue) : RValue

/-- The `OptionalUndefined` marker object itself (the class carries no state
that the modelled operations consult). -/
structure OptionalUndefined : Type where

namespace OptionalUndefined

/-- `__str__`: stringification returns the empty string (source line 25). -/
def str (_ : OptionalUndefined) : List Char := []

/-- `__repr__`: also the empty string (source line 28). -/
def reprStr (_ : OptionalUndefined) : List Char := []

/-- `__bool__`: boolean coercion returns `False` (source line 31). -/
def bool (_ : OptionalUndefined) : Bool := false

/-- `__len__`: length is zero (source line 34). -/
def len (_ : OptionalUndefined) : Nat := 0

/-- `__iter__`: iteration yields the empty sequence (source line 37). -/
def iter (_ : OptionalUndefined) : List JValue := []

/-- `__getitem__`: indexing returns the marker itself (source line 40). -/
def getitem (u : OptionalUndefined) (_ : JValue) : OptionalUndefined := u

/-- `__getattr__`: attribute access returns the marker itself (source line 43). -/
def getattr (u : OptionalUndefined) (_ : String) : OptionalUndefined := u

end OptionalUndefined

/-! ## The JSON serializer: model of `json.dumps(v, indent=i, ensure_ascii=False)` -/

/-- Decimal digit printing, with fuel for structural recursion
(`n + 1` fuel always suffices, see `natToCharsFuel_extra`). -/
def natToCharsFuel : Nat → Nat → List Char
  | 0, _ => []
  | fuel + 1, n =>
    if n < 10 then [Nat.digitChar n]
    else natToCharsFuel fuel (n / 10) ++ [Nat.digitChar (n % 10)]

/-- Decimal representation of a natural number, as `repr` produces it. -/
def natToChars (n : Nat) : List Char := natToCharsFuel (n + 1) n

/-- Integer `repr`, as `json.dumps` prints integral numbers. -/
def intRepr : Int → List Char
  | .ofNat n => natToChars n
  | .negSucc m => '-' :: natToChars (m + 1)

/-- `n` spaces: the indentation padding `json.dumps` emits. -/
def spaces (n : Nat) : List Char := List.replicate n ' '

/-- Escaping of one character inside a JSON string literal, with
`ensure_ascii=False`: only the quote, the backslash and control characters
are escaped; everything else — including non-ASCII — is kept verbatim
(CPython `json.encoder`'s `ESCAPE` regex and `ESCAPE_DCT`). -/
def escChar (c : Char) : List Char :=
  if c = '"' then ['\\', '"']
  else if c = '\\' then ['\\', '\\']
  else if c.toNat < 32 then
    match c.toNat with
    | 8 => ['\\', 'b']
    | 9 => ['\\', 't']
    | 10 => ['\\', 'n']
    | 12 => ['\\', 'f']
    | 13 => ['\\', 'r']
    | k => ['\\', 'u', '0', '0', Nat.digitChar (k / 16), Nat.digitChar (k % 16)]
  else [c]

/-- Escaping of a whole string body. -/
def escString (s : List Char) : List Char := s.flatMap escChar

/-- A serialized JSON string literal. -/
def dumpStr (s : List Char) : List Char := '"' :: escString s ++ ['"']

mutual

/-- `json.dumps(v, indent=ind, ensure_ascii=False)` at nesting level `lvl`:
with an `indent` argument, items are placed on their own lines with
`ind * level` spaces of padding and separators `",\n"` and `": "`. -/
def dumps (ind lvl : Nat) : JValue → List Char
  | .null => 'n' :: "ull".toList
  | .bool true => 't' :: "rue".toList
  | .bool false => 'f' :: "alse".toList
  | .int n => intRepr n
  | .str s => dumpStr s
  | .arr [] => ['[', ']']
  | .arr (x :: xs) =>
      '[' :: '\n' :: spaces (ind * (lvl + 1)) ++ dumps ind (lvl + 1) x
        ++ dumpsArr ind (lvl + 1) xs ++ '\n' :: spaces (ind * lvl) ++ [']']
  | .obj [] => ['{', '}']
  | .obj (kv :: kvs) =>
      '{' :: '\n' :: spaces (ind * (lvl + 1)) ++ dumpStr kv.1 ++ ':' :: ' ' ::
        dumps ind (lvl + 1) kv.2 ++ dumpsObj ind (lvl + 1) kvs
        ++ '\n' :: spaces (ind * lvl) ++ ['}']

/-- The remaining items of a non-empty serialized array: each is preceded by
`",\n"` and the level's padding. -/
def dumpsArr (ind lvl : Nat) : List JValue → List Char
  | [] => []
  | x :: xs => ',' :: '\n' :: spaces (ind * lvl) ++ dumps ind lvl x ++ dumpsArr ind lvl xs

/-- The remaining entries of a non-empty serialized object. -/
def dumpsObj (ind lvl : Nat) : List (List Char × JValue) → List Char
  | [] => []
  | kv :: kvs => ',' :: '\n' :: spaces (ind * lvl) ++ dumpStr kv.1 ++ ':' :: ' ' ::
      dumps ind lvl kv.2 ++ dumpsObj ind lvl kvs

end

/-- The custom filter registered as `tojson` (source lines 90–96): the
Undefined Marker serializes to the literal `null`, anything else goes through
`json.dumps(value, indent=indent, ensure_ascii=False)`. -/
def to_json (value : RValue) (indent : Nat := 2) : List Char :=
  match value with
  | .undef => 'n' :: "ull".toList
  | .val v => dumps indent 0 v

/-! ## Model of `json.loads`: recursive-descent parser for standard JSON

Fuel makes the recursion structural; `json_loads` supplies `length + 1` fuel,
which is always sufficient for inputs produced by `dumps`
(`fuelV_le_length_dumps` below).  Numbers are modelled as integers: a numeral
continuing with `.`, `e` or `E` is a float, outside the model, and is
rejected.  Surrogate-pair combination in `\uXXXX` escapes and the rejection
of leading zeros in numerals are not modelled; neither is exercised by any
input serialized from a `JValue`. -/

/-- JSON whitespace (`json.decoder`: space, tab, newline, carriage return). -/
def isJWs (c : Char) : Bool := c = ' ' || c = '\t' || c = '\n' || c = '\r'

/-- Skip JSON whitespace. -/
def skipWs (s : List Char) : List Char := s.dropWhile isJWs

/-- Value of a decimal digit run (most significant first). -/
def digitsVal (ds : List Char) : Nat :=
  ds.foldl (fun a c => a * 10 + (c.toNat - 48)) 0

/-- Value of one hexadecimal digit, if the character is one. -/
def hexVal (c : Char) : Option Nat :=
  if '0' ≤ c ∧ c ≤ '9' then some (c.toNat - 48)
  else if 'a' ≤ c ∧ c ≤ 'f' then some (c.toNat - 87)
  else if 'A' ≤ c ∧ c ≤ 'F' then some (c.toNat - 55)
  else none

/-- Parse the body of a JSON string literal (after the opening quote) up to
and including the closing quote, decoding backslash escapes and rejecting
raw control characters, as `json.decoder.py_scanstring` does in strict mode. -/
def parseStringBody : List Char → Except (List Char) (List Char × List Char)
  | [] => .error ('U' :: "nterminated string".toList)
  | c :: rest =>
    if c = '"' then .ok ([], rest)
    else if c = '\\' then
      match rest with
      | [] => .error ('U' :: "nterminated string".toList)
      | e :: r =>
        if e = 'u' then
          match r with
          | h1 :: h2 :: h3 :: h4 :: r2 =>
              (match hexVal h1, hexVal h2, hexVal h3, hexVal h4 with
               | some a, some b, some c1, some d =>
                   (match parseStringBody r2 with
                    | .ok (s, r3) => .ok (Char.ofNat (a * 4096 + b * 256 + c1 * 16 + d) :: s, r3)
                    | .error err => .error err)
               | _, _, _, _ => .error ('I' :: "nvalid \\uXXXX escape".toList))
          | _ => .error ('I' :: "nvalid \\uXXXX escape".toList)
        else
          match (if e = '"' then some '"'
                 else if e = '\\' then some '\\'
                 else if e = '/' then some '/'
                 else if e = 'b' then some (Char.ofNat 8)
                 else if e = 'f' then some (Char.ofNat 12)
                 else if e = 'n' then some '\n'
                 else if e = 'r' then some (Char.ofNat 13)
                 else if e = 't' then some '\t'
                 else none) with
          | some ch =>
              (match parseStringBody r with
               | .ok (s, r2) => .ok (ch :: s, r2)
               | .error err => .error err)
          | none => .error ('I' :: "nvalid \\escape".toList)
    else if c.toNat < 32 then .error ('I' :: "nvalid control character".toList)
    else
      match parseStringBody rest with
      | .ok (s, r) => .ok (c :: s, r)
      | .error e => .error e

/-- Parse an unsigned integral numeral; rejects an empty digit run and a
continuation that would make the numeral a float. -/
def parseNatNum (s : List Char) : Except (List Char) (Nat × List Char) :=
  let ds := s.takeWhile Char.isDigit
  let rest := s.dropWhile Char.isDigit
  if ds.isEmpty then .error ('E' :: "xpecting value".toList)
  else
    match rest with
    | c :: _ =>
        if c = '.' ∨ c = 'e' ∨ c = 'E' then
          .error ('f' :: "loat numerals are outside the model".toList)
        else .ok (digitsVal ds, rest)
    | [] => .ok (digitsVal ds, rest)

mutual

/-- Parse one JSON value at the head of the input (no leading whitespace);
returns the value and the unconsumed input. -/
def parseVal : Nat → List Char → Except (List Char) (JValue × List Char)
  | 0, _ => .error ('f' :: "uel exhausted".toList)
  | fuel + 1, s =>
    match s with
    | [] => .error ('E' :: "xpecting value".toList)
    | c :: r =>
      if c = '"' then
        match parseStringBody r with
        | .ok (s1, r1) => .ok (.str s1, r1)
        | .error e => .error e
      else if c = '[' then
        match skipWs r with
        | [] => .error ('E' :: "xpecting value".toList)
        | c1 :: r1 =>
            if c1 = ']' then .ok (.arr [], r1)
            else
              match parseArrItems fuel (c1 :: r1) with
              | .ok (xs, r2) => .ok (.arr xs, r2)
              | .error e => .error e
      else if c = '{' then
        match skipWs r with
        | [] => .error ('E' :: "xpecting value".toList)
        | c1 :: r1 =>
            if c1 = '}' then .ok (.obj [], r1)
            else
              match parseObjItems fuel (c1 :: r1) with
              | .ok (kvs, r2) => .ok (.obj kvs, r2)
              | .error e => .error e
      else if c = '-' then
        match parseNatNum r with
        | .ok (n, r1) => .ok (.int (-(n : Int)), r1)
        | .error e => .error e
      else if c.isDigit then
        match parseNatNum (c :: r) with
        | .ok (n, r1) => .ok (.int (n : Int), r1)
        | .error e => .error e
      else if c = 'n' then
        match r with
        | 'u' :: 'l' :: 'l' :: r1 => .ok (.null, r1)
        | _ => .error ('E' :: "xpecting value".toList)
      else if c = 't' then
        match r with
        | 'r' :: 'u' :: 'e' :: r1 => .ok (.bool true, r1)
        | _ => .error ('E' :: "xpecting value".toList)
      else if c = 'f' then
        match r with
        | 'a' :: 'l' :: 's' :: 'e' :: r1 => .ok (.bool false, r1)
        | _ => .error ('E' :: "xpecting value".toList)
      else .error ('E' :: "xpecting value".toList)

/-- Parse the items of a non-empty array, starting at the first item
(whitespace already skipped), through the closing bracket. -/
def parseArrItems : Nat → List Char → Except (List Char) (List JValue × List Char)
  | 0, _ => .error ('f' :: "uel exhausted".toList)
  | fuel + 1, s =>
    match parseVal fuel s with
    | .error e => .error e
    | .ok (v, r) =>
        match skipWs r with
        | [] => .error ('E' :: "xpecting comma".toList)
        | c :: r1 =>
            if c = ',' then
              match parseArrItems fuel (skipWs r1) with
              | .ok (vs, r2) => .ok (v :: vs, r2)
              | .error e => .error e
            else if c = ']' then .ok ([v], r1)
            else .error ('E' :: "xpecting comma".toList)

/-- Parse the entries of a non-empty object, starting at the first key
(whitespace already skipped), through the closing brace. -/
def parseObjItems : Nat → List Char → Except (List Char) (List (List Char × JValue) × List Char)
  | 0, _ => .error ('f' :: "uel exhausted".toList)
  | fuel + 1, s =>
    match s with
    | [] => .error ('E' :: "xpecting property name".toList)
    | c :: r =>
        if c = '"' then
          match parseStringBody r with
          | .error e => .error e
          | .ok (k, r1) =>
              match skipWs r1 with
              | [] => .error ('E' :: "xpecting colon delimiter".toList)
              | c1 :: r2 =>
                  if c1 = ':' then
                    match parseVal fuel (skipWs r2) with
                    | .error e => .error e
                    | .ok (v, r3) =>
                        match skipWs r3 with
                        | [] => .error ('E' :: "xpecting comma".toList)
                        | c2 :: r4 =>
                            if c2 = ',' then
                              match parseObjItems fuel (skipWs r4) with
                              | .ok (kvs, r5) => .ok ((k, v) :: kvs, r5)
                              | .error e => .error e
                            else if c2 = '}' then .ok ([(k, v)], r4)
                            else .error ('E' :: "xpecting comma".toList)
                  else .error ('E' :: "xpecting colon delimiter".toList)
        else .error ('E' :: "xpecting property name".toList)

end

/-- Model of `json.loads`: skip leading whitespace, parse one value, require
only whitespace to remain ("Extra data" otherwise). -/
def json_loads (s : List Char) : Except (List Char) JValue :=
  match parseVal (s.length + 1) (skipWs s) with
  | .ok (v, r) => if (skipWs r).isEmpty then .ok v else .error ('E' :: "xtra data".toList)
  | .error e => .error e

/-! ## Python stringification (what Jinja2 interpolates for `{{ expr }}`) -/

/-- Escaping inside Python's `repr` of a string (simplified to the escapes
the data in this repository can exercise; `repr`'s quote-choice heuristic and
non-printable escapes beyond the common ones are not modelled). -/
def pyEscChar (c : Char) : List Char :=
  if c = '\\' then ['\\', '\\']
  else if c = '\'' then ['\\', '\'']
  else if c = '\n' then ['\\', 'n']
  else if c = Char.ofNat 13 then ['\\', 'r']
  else if c = '\t' then ['\\', 't']
  else [c]

/-- Python `repr` of a string: single-quoted with escapes. -/
def pyReprStr (s : List Char) : List Char := '\'' :: s.flatMap pyEscChar ++ ['\'']

mutual

/-- Python `repr` of a decoded value (what `str` falls back to for values
nested inside a printed list or dict). -/
def pyRepr : JValue → List Char
  | .null => ['N', 'o', 'n', 'e']
  | .bool true => ['T', 'r', 'u', 'e']
  | .bool false => ['F', 'a', 'l', 's', 'e']
  | .int n => intRepr n
  | .str s => pyReprStr s
  | .arr [] => ['[', ']']
  | .arr (x :: xs) => '[' :: pyRepr x ++ pyReprList xs ++ [']']
  | .obj [] => ['{', '}']
  | .obj (kv :: kvs) =>
      '{' :: pyReprStr kv.1 ++ ':' :: ' ' :: pyRepr kv.2 ++ pyReprObj kvs ++ ['}']

/-- Remaining items of a printed list, `", "`-separated. -/
def pyReprList : List JValue → List Char
  | [] => []
  | x :: xs => ',' :: ' ' :: pyRepr x ++ pyReprList xs

/-- Remaining entries of a printed dict, `", "`-separated. -/
def pyReprObj : List (List Char × JValue) → List Char
  | [] => []
  | kv :: kvs => ',' :: ' ' :: pyReprStr kv.1 ++ ':' :: ' ' :: pyRepr kv.2 ++ pyReprObj kvs

end

/-- Python `str` of a decoded value: scalars print bare, composites via
`repr`. -/
def pyStr : JValue → List Char
  | .null => ['N', 'o', 'n', 'e']
  | .bool true => ['T', 'r', 'u', 'e']
  | .bool false => ['F', 'a', 'l', 's', 'e']
  | .int n => intRepr n
  | .str s => s
  | .arr xs => pyRepr (.arr xs)
  | .obj kvs => pyRepr (.obj kvs)

/-! ## The configured rendering engine

The Jinja2 engine is an external collaborator; this models the fragment the
tool configures and drives (source lines 68–105): variable resolution under
the chosen undefined-value policy, attribute/subscript chains, the `length`
filter, the custom `tojson` filter, `{% for %}` loops and text/output nodes.
-/

/-- The Undefined-Value Policy (§4.2): `undefined=StrictUndefined if strict
else OptionalUndefined` (source line 87). -/
inductive Policy : Type where
  | strict : Policy
  | lenient : Policy
deriving DecidableEq

/-- `if strict then raise errors else treat missing values as empty`
(source `load_template`, line 87). -/
def selectPolicy (strict : Bool) : Policy := if strict then .strict else .lenient

/-- Template expressions: a variable, an attribute/subscript chain, the
`length` filter, or the custom `tojson` filter. -/
inductive Expr : Type where
  | var (name : String)
  | getattr (e : Expr) (name : String)
  | getitem (e : Expr) (key : String)
  | filterLength (e : Expr)
  | filterToJson (e : Expr) (indent : Nat)
deriving DecidableEq

/-- Template nodes: literal text, `{{ expr }}` output, sequencing, and a
`{% for %}` loop. -/
inductive Node : Type where
  | text (s : List Char)
  | output (e : Expr)
  | seq (a b : Node)
  | forIn (x : String) (e : Expr) (body : Node)
deriving DecidableEq

/-- Jinja's UndefinedError message for a missing name. -/
def undefinedMsg (n : String) : List Char := '\'' :: n.toList ++ ('\'' :: " is undefined".toList)

/-- Key lookup in a decoded mapping. -/
def lookupKey (kvs : List (List Char × JValue)) (k : List Char) : Option JValue :=
  List.lookup k kvs

/-- `environment.getattr`/`getitem` on a value: a present key of a mapping is
returned; a failed lookup (missing key, or a non-mapping value) produces the
environment's undefined — the Marker when lenient, an error when strict
(`StrictUndefined` raises as soon as it is touched). -/
def access (p : Policy) (r : RValue) (name : String) : Except (List Char) RValue :=
  match r with
  | .undef =>
      match p with
      | .lenient => .ok .undef
      | .strict => .error (undefinedMsg name)
  | .val (.obj kvs) =>
      match lookupKey kvs name.toList with
      | some v => .ok (.val v)
      | none =>
          match p with
          | .lenient => .ok .undef
          | .strict => .error (undefinedMsg name)
  | .val _ =>
      match p with
      | .lenient => .ok .undef
      | .strict => .error (undefinedMsg name)

/-- Evaluate a template expression against the top-level variable bindings. -/
def evalE (p : Policy) (env : List (List Char × JValue)) : Expr → Except (List Char) RValue
  | .var n =>
      match lookupKey env n.toList with
      | some v => .ok (.val v)
      | none =>
          match p with
          | .lenient => .ok .undef
          | .strict => .error (undefinedMsg n)
  | .getattr e a =>
      match evalE p env e with
      | .ok r => access p r a
      | .error err => .error err
  | .getitem e k =>
      match evalE p env e with
      | .ok r => access p r k
      | .error err => .error err
  | .filterLength e =>
      match evalE p env e with
      | .error err => .error err
      | .ok .undef => .ok (.val (.int 0))
      | .ok (.val (.str s)) => .ok (.val (.int s.length))
      | .ok (.val (.arr xs)) => .ok (.val (.int xs.length))
      | .ok (.val (.obj kvs)) => .ok (.val (.int kvs.length))
      | .ok (.val _) => .error ('o' :: "bject has no len()".toList)
  | .filterToJson e ind =>
      match evalE p env e with
      | .ok r => .ok (.val (.str (to_json r ind)))
      | .error err => .error err

/-- What `{{ e }}` interpolates: the Marker prints as the empty string
(`OptionalUndefined.__str__`), values print via Python `str`. -/
def printR : RValue → List Char
  | .undef => []
  | .val v => pyStr v

/-- What `{% for %}` iterates: the Marker yields the empty sequence
(`OptionalUndefined.__iter__`); arrays their items, strings their
characters, mappings their keys; scalars are not iterable. -/
def iterOf (p : Policy) (r : RValue) : Except (List Char) (List JValue) :=
  match r with
  | .undef =>
      match p with
      | .lenient => .ok []
      | .strict => .error ('u' :: "ndefined is not iterable".toList)
  | .val (.arr xs) => .ok xs
  | .val (.str s) => .ok (s.map fun c => .str [c])
  | .val (.obj kvs) => .ok (kvs.map fun kv => .str kv.1)
  | .val _ => .error ('o' :: "bject is not iterable".toList)

/-- Render each loop iteration and concatenate, stopping at the first
error. -/
def loopRender (f : JValue → Except (List Char) (List Char)) :
    List JValue → Except (List Char) (List Char)
  | [] => .ok []
  | v :: vs =>
      match f v with
      | .error e => .error e
      | .ok s =>
          match loopRender f vs with
          | .error e => .error e
          | .ok r => .ok (s ++ r)

/-- Render a template node under the given policy and bindings. -/
def renderNode (p : Policy) : Node → List (List Char × JValue) → Except (List Char) (List Char)
  | .text s, _ => .ok s
  | .output e, env =>
      match evalE p env e with
      | .ok r => .ok (printR r)
      | .error err => .error err
  | .seq a b, env =>
      match renderNode p a env with
      | .error e => .error e
      | .ok sa =>
          match renderNode p b env with
          | .error e => .error e
          | .ok sb => .ok (sa ++ sb)
  | .forIn x e body, env =>
      match evalE p env e with
      | .error err => .error err
      | .ok r =>
          match iterOf p r with
          | .error err => .error err
          | .ok items => loopRender (fun v => renderNode p body ((x.toList, v) :: env)) items

/-- One access step of a chain on a value. -/
inductive Step : Type where
  | attr (name : String)
  | item (key : String)

/-- An access chain `root.a[k].b...` as an expression. -/
def chainOf (root : Expr) : List Step → Expr
  | [] => root
  | .attr a :: rest => chainOf (.getattr root a) rest
  | .item k :: rest => chainOf (.getitem root k) rest

/-- Whether a template evaluates the expression `e` on every rendering path:
`e` is the expression of an output node, or the iterated expression of a
loop, outside of any loop body (a body may run zero times). -/
def containsOut : Node → Expr → Bool
  | .text _, _ => false
  | .output e', e => decide (e' = e)
  | .seq a b, e => containsOut a e || containsOut b e
  | .forIn _ e' _, e => decide (e' = e)

/-! ## `load_data` and the CLI pipeline -/

/-- How `load_data` terminates abnormally: an uncaught `FileNotFoundError`
from `open`, or the handled parse failure (which quotes the YAML error). -/
inductive LoadErr : Type where
  | fileNotFound (path : String)
  | parseErr (yamlMsg : List Char)
deriving DecidableEq

/-- Reading the raw content (source lines 49–55): `-` or an absent source
reads stdin, otherwise `open(path)` — which raises `FileNotFoundError` before
any decoding when the file is missing. -/
def readSource (fs : List (String × List Char)) (stdin : List Char) :
    Option String → Except LoadErr (List Char)
  | none => .ok stdin
  | some p =>
      if p = "-" then .ok stdin
      else
        match List.lookup p fs with
        | some c => .ok c
        | none => .error (.fileNotFound p)

/-- The decode phase of `load_data` (source lines 57–64): try JSON; on a
`JSONDecodeError` try YAML on the same content; if that also fails, a single
data-format error quoting the YAML diagnostic. -/
def parse_content (yamlLoad : List Char → Except (List Char) JValue)
    (content : List Char) : Except LoadErr JValue :=
  match json_loads content with
  | .ok v => .ok v
  | .error _ =>
      match yamlLoad content with
      | .ok v => .ok v
      | .error e => .error (.parseErr e)

/-- `load_data(data_source)` (source lines 46–64): read the whole source,
then decode with the JSON-first fallback order.  `yamlLoad` is the external
`yaml.safe_load` collaborator. -/
def load_data (yamlLoad : List Char → Except (List Char) JValue)
    (fs : List (String × List Char)) (stdin : List Char)
    (data_source : Option String) : Except LoadErr JValue :=
  match readSource fs stdin data_source with
  | .error e => .error e
  | .ok content => parse_content yamlLoad content

/-- `render_template(template, data)` up to its error reporting (source lines
107–113): `template.render(**data)` requires a string-keyed mapping at the
top level (`TypeError` otherwise) and renders it under the environment's
policy. -/
def render_template (p : Policy) (t : Node) (data : JValue) : Except (List Char) (List Char) :=
  match data with
  | .obj kvs => renderNode p t kvs
  | _ => .error ('r' :: "ender() argument after ** must be a mapping".toList)

/-- The observable outcome of one process invocation. -/
structure Outcome : Type where
  exitCode : Nat
  stdout : List Char
  stderr : List Char
  fileWrites : List (String × List Char)
deriving DecidableEq

/-- The parsed command-line flags. -/
structure Args : Type where
  template : String
  data : Option String
  output : Option String
  validateOnly : Bool
  strict : Bool
deriving DecidableEq

/-- stderr text of the uncaught `FileNotFoundError` traceback. -/
def tracebackMsg (p : String) : List Char :=
  ('T' :: "raceback (most recent call last):\nFileNotFoundError: [Errno 2] No such file or directory: '".toList)
    ++ p.toList ++ ('\'' :: ['\n'])

/-- stderr text of the combined data-format error (source line 63). -/
def dataParseMsg (m : List Char) : List Char :=
  ('E' :: "rror: Unable to parse data as JSON or YAML: ".toList) ++ m ++ ['\n']

/-- stderr text when the template file is missing (source line 77). -/
def templateNotFoundMsg (p : String) : List Char :=
  ('E' :: "rror: Template file '".toList) ++ p.toList ++ ('\'' :: " not found".toList) ++ ['\n']

/-- stderr text when the engine cannot load/parse the template (source line 103). -/
def templateLoadMsg (e : List Char) : List Char :=
  ('E' :: "rror loading template: ".toList) ++ e ++ ['\n']

/-- stderr text of a render failure (source line 112). -/
def renderErrMsg (e : List Char) : List Char :=
  ('E' :: "rror rendering template: ".toList) ++ e ++ ['\n']

/-- stderr text of a successful validate-only run (source line 174). -/
def validMsg : List Char :=
  ('✓' :: " Template and data are valid (rendered successfully)".toList) ++ ['\n']

/-- stderr confirmation after saving to a file (source line 188). -/
def savedMsg (p : String) : List Char :=
  ('✓' :: " Generated context saved to ".toList) ++ p.toList ++ ['\n']

/-- The `main` pipeline (source lines 116–191): load data, load the
template, then either validate-only (render and discard) or render and route
the output — `f.write(result)` for a file, `print(result)` for stdout.
`tmplSrc` stands for the template file: absent, unparseable, or a parsed
template. -/
def runMain (args : Args) (fs : List (String × List Char)) (stdin : List Char)
    (tmplSrc : Option (Except (List Char) Node))
    (yamlLoad : List Char → Except (List Char) JValue) : Outcome :=
  match load_data yamlLoad fs stdin args.data with
  | .error (.fileNotFound p) => ⟨1, [], tracebackMsg p, []⟩
  | .error (.parseErr m) => ⟨1, [], dataParseMsg m, []⟩
  | .ok data =>
      match tmplSrc with
      | none => ⟨1, [], templateNotFoundMsg args.template, []⟩
      | some (.error e) => ⟨1, [], templateLoadMsg e, []⟩
      | some (.ok t) =>
          match render_template (selectPolicy args.strict) t data with
          | .error e => ⟨1, [], renderErrMsg e, []⟩
          | .ok result =>
              if args.validateOnly then ⟨0, [], validMsg, []⟩
              else
                match args.output with
                | some path => ⟨0, [], savedMsg path, [(path, result)]⟩
                | none => ⟨0, result ++ ['\n'], [], []⟩

/-- Whether a decoded value is a mapping (and can be splatted as
`template.render(**data)` keyword arguments). -/
def isMapping : JValue → Bool
  | .obj _ => true
  | _ => false

/-- The characters that may legally follow a serialized numeral without
being absorbed into it: anything that is not a digit and does not start a
float continuation. -/
def numStop : List Char → Prop
  | [] => True
  | c :: _ => c.isDigit = false ∧ c ≠ '.' ∧ c ≠ 'e' ∧ c ≠ 'E'

/-! ## Fuel accounting for the parser -/

mutual

/-- Fuel sufficient for `parseVal` to parse the serialization of `v`. -/
def fuelV : JValue → Nat
  | .null => 1
  | .bool _ => 1
  | .int _ => 1
  | .str _ => 1
  | .arr l => 1 + fuelArr l
  | .obj l => 1 + fuelObj l

/-- Fuel sufficient for `parseArrItems` on the items of an array. -/
def fuelArr : List JValue → Nat
  | [] => 0
  | x :: xs => 1 + fuelV x + fuelArr xs

/-- Fuel sufficient for `parseObjItems` on the entries of an object. -/
def fuelObj : List (List Char × JValue) → Nat
  | [] => 0
  | kv :: kvs => 1 + fuelV kv.2 + fuelObj kvs

end

/-- The round-trip property of one value. -/
def RT (v : JValue) : Prop :=
  ∀ (ind lvl fuel : Nat) (rest : List Char), numStop rest → fuelV v ≤ fuel →
    parseVal fuel (dumps ind lvl v ++ rest) = .ok (v, rest)

/-! ## Basic character and digit-printing lemmas -/

theorem digitChar_isDigit {d : Nat} (h : d < 10) : (Nat.digitChar d).isDigit = true := by
  interval_cases d <;> decide

theorem digitChar_toNat {d : Nat} (h : d < 10) : (Nat.digitChar d).toNat = 48 + d := by
  interval_cases d <;> decide

theorem hexVal_digitChar {d : Nat} (h : d < 16) : hexVal (Nat.digitChar d) = some d := by
  interval_cases d <;> decide

theorem isDigit_ne {c x : Char} (h : c.isDigit = true) (hx : ¬ x.isDigit = true) : c ≠ x :=
  fun he => hx (he ▸ h)

theorem isJWs_eq_false_of_isDigit {c : Char} (h : c.isDigit = true) : isJWs c = false := by
  have h1 : c ≠ ' ' := isDigit_ne h (by decide)
  have h2 : c ≠ '\t' := isDigit_ne h (by decide)
  have h3 : c ≠ '\n' := isDigit_ne h (by decide)
  have h4 : c ≠ Char.ofNat 13 := isDigit_ne h (by decide)
  simp [isJWs, h1, h2, h3, h4]

theorem natToCharsFuel_extra : ∀ {f1 f2 n : Nat}, n < f1 → n < f2 →
    natToCharsFuel f1 n = natToCharsFuel f2 n := by
  intro f1 f2 n
  induction n using Nat.strong_induction_on generalizing f1 f2 with
  | _ n ih =>
    intro h1 h2
    match f1, f2 with
    | g1 + 1, g2 + 1 =>
      simp only [natToCharsFuel]
      by_cases hn : n < 10
      · simp [hn]
      · simp only [hn, if_false]
        have heq := ih (n / 10) (show n / 10 < n by omega)
          (show n / 10 < g1 by omega) (show n / 10 < g2 by omega)
        rw [heq]

theorem mem_natToCharsFuel_isDigit : ∀ {f n : Nat} {c : Char},
    c ∈ natToCharsFuel f n → c.isDigit = true := by
  intro f
  induction f with
  | zero => intro n c h; simp [natToCharsFuel] at h
  | succ g ih =>
    intro n c h
    simp only [natToCharsFuel] at h
    by_cases hn : n < 10
    · simp [hn] at h
      exact h ▸ digitChar_isDigit hn
    · simp [hn, List.mem_append] at h
      rcases h with h | h
      · exact ih h
      · exact h ▸ digitChar_isDigit (Nat.mod_lt _ (by omega))

theorem mem_natToChars_isDigit {n : Nat} {c : Char} (h : c ∈ natToChars n) :
    c.isDigit = true := mem_natToCharsFuel_isDigit h

theorem natToChars_ne_nil {n : Nat} : natToChars n ≠ [] := by
  unfold natToChars natToCharsFuel
  by_cases hn : n < 10 <;> simp [hn]

theorem foldl_natToCharsFuel : ∀ (f : Nat) {n : Nat} (acc : Nat), n < f →
    List.foldl (fun a c => a * 10 + (c.toNat - 48)) acc (natToCharsFuel f n)
      = acc * 10 ^ (natToCharsFuel f n).length + n := by
  intro f
  induction f with
  | zero => omega
  | succ g ih =>
    intro n acc h
    simp only [natToCharsFuel]
    by_cases hn : n < 10
    · simp [hn, digitChar_toNat hn]
    · have hd : n / 10 < g := by omega
      simp only [hn, if_false, List.foldl_append, List.length_append]
      rw [ih acc hd]
      simp [digitChar_toNat (Nat.mod_lt n (by omega)), pow_succ]
      ring_nf
      omega

theorem digitsVal_natToChars (n : Nat) : digitsVal (natToChars n) = n := by
  have := foldl_natToCharsFuel (n + 1) (n := n) 0 (by omega)
  simpa [digitsVal, natToChars] using this

/-! ## Whitespace-skipping lemmas -/

theorem skipWs_cons_ws {c : Char} (h : isJWs c = true) (t : List Char) :
    skipWs (c :: t) = skipWs t := by
  simp [skipWs, List.dropWhile_cons, h]

theorem skipWs_cons_nonWs {c : Char} (h : isJWs c = false) (t : List Char) :
    skipWs (c :: t) = c :: t := by
  simp [skipWs, List.dropWhile_cons, h]

theorem skipWs_spaces (m : Nat) (t : List Char) : skipWs (spaces m ++ t) = skipWs t := by
  induction m with
  | zero => simp [spaces]
  | succ k ih =>
    simp only [spaces, List.replicate_succ, List.cons_append]
    rw [skipWs_cons_ws (by decide)]
    exact ih

theorem skipWs_newline_pad (m : Nat) (t : List Char) :
    skipWs ('\n' :: (spaces m ++ t)) = skipWs t := by
  rw [skipWs_cons_ws (by decide), skipWs_spaces]

theorem takeWhile_append_all {p : Char → Bool} {xs ys : List Char}
    (h : ∀ c ∈ xs, p c = true) :
    (xs ++ ys).takeWhile p = xs ++ ys.takeWhile p := by
  induction xs with
  | nil => simp
  | cons a l ih =>
    simp only [List.cons_append, List.takeWhile_cons, h a (by simp)]
    simp only [if_true]
    rw [ih (fun c hc => h c (by simp [hc]))]

theorem dropWhile_append_all {p : Char → Bool} {xs ys : List Char}
    (h : ∀ c ∈ xs, p c = true) :
    (xs ++ ys).dropWhile p = ys.dropWhile p := by
  induction xs with
  | nil => simp
  | cons a l ih =>
    simp only [List.cons_append, List.dropWhile_cons, h a (by simp)]
    simp only [if_true]
    exact ih (fun c hc => h c (by simp [hc]))

/-! ## Number parsing round-trip -/

theorem parseNatNum_natToChars (n : Nat) {rest : List Char} (h : numStop rest) :
    parseNatNum (natToChars n ++ rest) = .ok (n, rest) := by
  have hall : ∀ c ∈ natToChars n, Char.isDigit c = true :=
    fun c hc => mem_natToChars_isDigit hc
  unfold parseNatNum
  rw [takeWhile_append_all hall, dropWhile_append_all hall]
  cases rest with
  | nil =>
    simp [digitsVal_natToChars, natToChars_ne_nil, List.isEmpty_iff]
  | cons c t =>
    obtain ⟨hd, h1, h2, h3⟩ := h
    rw [List.takeWhile_cons, List.dropWhile_cons]
    simp only [hd, if_false, List.append_nil]
    simp [digitsVal_natToChars, natToChars_ne_nil, List.isEmpty_iff, h1, h2, h3]

theorem parseVal_int (g : Nat) (n : Int) {rest : List Char} (h : numStop rest) :
    parseVal (g + 1) (intRepr n ++ rest) = .ok (.int n, rest) := by
  cases n with
  | ofNat m =>
    show parseVal (g + 1) (natToChars m ++ rest) = _
    cases hnc : natToChars m with
    | nil => exact absurd hnc natToChars_ne_nil
    | cons c t =>
      have hd : c.isDigit = true := mem_natToChars_isDigit (by rw [hnc]; simp)
      simp only [List.cons_append, parseVal]
      rw [if_neg (isDigit_ne hd (by decide)), if_neg (isDigit_ne hd (by decide)),
        if_neg (isDigit_ne hd (by decide)), if_neg (isDigit_ne hd (by decide)),
        if_pos hd]
      rw [show c :: (t ++ rest) = natToChars m ++ rest by rw [hnc]; simp]
      rw [parseNatNum_natToChars m h]
      rfl
  | negSucc m =>
    show parseVal (g + 1) (('-' :: natToChars (m + 1)) ++ rest) = _
    simp only [List.cons_append, parseVal]
    rw [parseNatNum_natToChars (m + 1) h]
    simp [Int.negSucc_eq]

theorem parseStringBody_escString : ∀ (s rest : List Char),
    parseStringBody (escString s ++ '"' :: rest) = .ok (s, rest) := by
  intro s
  induction s with
  | nil => intro rest; rw [show escString [] = [] from rfl, List.nil_append,
      parseStringBody.eq_def]; simp
  | cons c s ih =>
    intro rest
    rw [show escString (c :: s) = escChar c ++ escString s from by simp [escString],
      List.append_assoc]
    by_cases hq : c = '"'
    · subst hq; rw [show escChar '"' = ['\\', '"'] from rfl]
      rw [List.cons_append, List.cons_append, List.nil_append, parseStringBody.eq_def]
      simp [ih]
    · by_cases hb : c = '\\'
      · subst hb; rw [show escChar '\\' = ['\\', '\\'] from rfl]
        rw [List.cons_append, List.cons_append, List.nil_append, parseStringBody.eq_def]
        simp [ih]
      · by_cases h32 : c.toNat < 32
        · simp only [escChar, if_neg hq, if_neg hb, if_pos h32]
          split
          next h8 =>
            have hc : Char.ofNat 8 = c := by rw [← h8, Char.ofNat_toNat]
            rw [parseStringBody.eq_def]; simp [ih]
            exact hc
          next h9 =>
            have hc : '\t' = c := by
              rw [show '\t' = Char.ofNat 9 from rfl, ← h9, Char.ofNat_toNat]
            rw [parseStringBody.eq_def]; simp [ih]
            exact hc
          next h10 =>
            have hc : '\n' = c := by
              rw [show '\n' = Char.ofNat 10 from rfl, ← h10, Char.ofNat_toNat]
            rw [parseStringBody.eq_def]; simp [ih]
            exact hc
          next h12 =>
            have hc : Char.ofNat 12 = c := by rw [← h12, Char.ofNat_toNat]
            rw [parseStringBody.eq_def]; simp [ih]
            exact hc
          next h13 =>
            have hc : Char.ofNat 13 = c := by rw [← h13, Char.ofNat_toNat]
            rw [parseStringBody.eq_def]; simp [ih]
            exact hc
          next k hk8 hk9 hk10 hk12 hk13 =>
            have e0 : hexVal '0' = some 0 := by decide
            have e3 : hexVal (Nat.digitChar (c.toNat / 16)) = some (c.toNat / 16) :=
              hexVal_digitChar (by omega)
            have e4 : hexVal (Nat.digitChar (c.toNat % 16)) = some (c.toNat % 16) :=
              hexVal_digitChar (by omega)
            have harith : Char.ofNat (c.toNat / 16 * 16 + c.toNat % 16) = c := by
              rw [show c.toNat / 16 * 16 + c.toNat % 16 = c.toNat from by omega,
                Char.ofNat_toNat]
            rw [parseStringBody.eq_def]
            simp [e0, e3, e4, ih, harith]
        · have hesc : escChar c = [c] := by
            simp [escChar, hq, hb, h32]
          rw [hesc]
          simp only [List.cons_append, List.nil_append]
          rw [parseStringBody.eq_def]
          simp only [if_neg hq, if_neg hb, if_neg h32]
          rw [ih rest]

/-- Any serialized value starts with a visible, non-bracket-closing
character. -/
theorem dumps_head (ind lvl : Nat) (v : JValue) :
    ∃ c t, dumps ind lvl v = c :: t ∧ isJWs c = false ∧ c ≠ ']' := by
  cases v with
  | null => exact ⟨'n', _, rfl, by decide, by decide⟩
  | bool b =>
    cases b
    · exact ⟨'f', _, rfl, by decide, by decide⟩
    · exact ⟨'t', _, rfl, by decide, by decide⟩
  | int n =>
    cases n with
    | ofNat m =>
      cases hnc : natToChars m with
      | nil => exact absurd hnc natToChars_ne_nil
      | cons c t =>
        have hd : c.isDigit = true := mem_natToChars_isDigit (by rw [hnc]; simp)
        refine ⟨c, t, ?_, isJWs_eq_false_of_isDigit hd, isDigit_ne hd (by decide)⟩
        rw [show dumps ind lvl (.int (Int.ofNat m)) = natToChars m from rfl, hnc]
    | negSucc m => exact ⟨'-', _, rfl, by decide, by decide⟩
  | str s => exact ⟨'"', _, rfl, by decide, by decide⟩
  | arr xs =>
    cases xs
    · exact ⟨'[', _, rfl, by decide, by decide⟩
    · exact ⟨'[', _, rfl, by decide, by decide⟩
  | obj kvs =>
    cases kvs
    · exact ⟨'{', _, rfl, by decide, by decide⟩
    · exact ⟨'{', _, rfl, by decide, by decide⟩

/-- Structural induction over `JValue`, recursing through the nested lists. -/
theorem JValue.inductionOn {P : JValue → Prop}
    (hnull : P .null) (hbool : ∀ b, P (.bool b)) (hint : ∀ n, P (.int n))
    (hstr : ∀ s, P (.str s))
    (harr : ∀ xs, (∀ x ∈ xs, P x) → P (.arr xs))
    (hobj : ∀ kvs, (∀ kv ∈ kvs, P kv.2) → P (.obj kvs)) : ∀ v, P v
  | .null => hnull
  | .bool b => hbool b
  | .int n => hint n
  | .str s => hstr s
  | .arr xs =>
      harr xs (fun x hx => JValue.inductionOn hnull hbool hint hstr harr hobj x)
  | .obj kvs =>
      hobj kvs (fun kv hkv => JValue.inductionOn hnull hbool hint hstr harr hobj kv.2)
termination_by v => sizeOf v
decreasing_by
  · have := List.sizeOf_lt_of_mem hx
    simp only [JValue.arr.sizeOf_spec]
    omega
  · have h1 := List.sizeOf_lt_of_mem hkv
    have h2 : sizeOf kv.2 < sizeOf kv := by
      cases kv with
      | mk a b => simp
    simp only [JValue.obj.sizeOf_spec]
    omega

theorem skipWs_dumps_append (ind lvl : Nat) (v : JValue) (t : List Char) :
    skipWs (dumps ind lvl v ++ t) = dumps ind lvl v ++ t := by
  obtain ⟨c, u, hct, hws, _⟩ := dumps_head ind lvl v
  rw [hct, List.cons_append, skipWs_cons_nonWs hws]

theorem parseArrItems_dumps (ind lvl m : Nat) :
    ∀ (xs : List JValue) (x : JValue) (fuel : Nat) (rest : List Char),
      (∀ y ∈ x :: xs, RT y) → numStop rest → 1 + fuelV x + fuelArr xs ≤ fuel →
      parseArrItems fuel
        (dumps ind lvl x ++ (dumpsArr ind lvl xs ++ ('\n' :: (spaces m ++ (']' :: rest)))))
        = .ok (x :: xs, rest) := by
  intro xs
  induction xs with
  | nil =>
    intro x fuel rest hRT hstop hf
    cases fuel with
    | zero => exact absurd hf (by omega)
    | succ g =>
      rw [parseArrItems.eq_def]
      simp only [dumpsArr, List.nil_append]
      have hx := hRT x (by simp) ind lvl g ('\n' :: (spaces m ++ (']' :: rest)))
        ⟨by decide, by decide, by decide, by decide⟩ (by omega)
      rw [hx]
      have hsk : skipWs ('\n' :: (spaces m ++ (']' :: rest))) = ']' :: rest := by
        rw [skipWs_newline_pad, skipWs_cons_nonWs (by decide)]
      simp [hsk]
  | cons y ys ih =>
    intro x fuel rest hRT hstop hf
    cases fuel with
    | zero => exact absurd hf (by omega)
    | succ g =>
      have harr : dumpsArr ind lvl (y :: ys) ++ ('\n' :: (spaces m ++ (']' :: rest)))
          = ',' :: '\n' :: (spaces (ind * lvl) ++ (dumps ind lvl y ++
              (dumpsArr ind lvl ys ++ ('\n' :: (spaces m ++ (']' :: rest)))))) := by
        simp [dumpsArr, List.append_assoc]
      rw [harr]
      simp only [parseArrItems]
      have hx := hRT x (by simp) ind lvl g
        (',' :: '\n' :: (spaces (ind * lvl) ++ (dumps ind lvl y ++
          (dumpsArr ind lvl ys ++ ('\n' :: (spaces m ++ (']' :: rest)))))))
        ⟨by decide, by decide, by decide, by decide⟩ (by simp [fuelV, fuelArr] at hf ⊢; omega)
      rw [hx]
      have hsk1 : skipWs (',' :: '\n' :: (spaces (ind * lvl) ++ (dumps ind lvl y ++
          (dumpsArr ind lvl ys ++ ('\n' :: (spaces m ++ (']' :: rest)))))))
          = ',' :: '\n' :: (spaces (ind * lvl) ++ (dumps ind lvl y ++
          (dumpsArr ind lvl ys ++ ('\n' :: (spaces m ++ (']' :: rest)))))) :=
        skipWs_cons_nonWs (by decide) _
      have hsk2 : skipWs ('\n' :: (spaces (ind * lvl) ++ (dumps ind lvl y ++
          (dumpsArr ind lvl ys ++ ('\n' :: (spaces m ++ (']' :: rest)))))))
          = dumps ind lvl y ++ (dumpsArr ind lvl ys ++ ('\n' :: (spaces m ++ (']' :: rest)))) := by
        rw [skipWs_newline_pad, skipWs_dumps_append]
      have hih := ih y g rest (fun z hz => hRT z (by simp at hz ⊢; tauto)) hstop
        (by simp [fuelArr] at hf ⊢; omega)
      simp [hsk1, hsk2, hih]

theorem parseObjItems_dumps (ind lvl m : Nat) :
    ∀ (kvs : List (List Char × JValue)) (k : List Char) (v : JValue) (fuel : Nat)
      (rest : List Char),
      (∀ e ∈ (k, v) :: kvs, RT e.2) → numStop rest → 1 + fuelV v + fuelObj kvs ≤ fuel →
      parseObjItems fuel
        (dumpStr k ++ (':' :: ' ' :: (dumps ind lvl v ++
          (dumpsObj ind lvl kvs ++ ('\n' :: (spaces m ++ ('}' :: rest)))))))
        = .ok ((k, v) :: kvs, rest) := by
  intro kvs
  induction kvs with
  | nil =>
    intro k v fuel rest hRT hstop hf
    cases fuel with
    | zero => exact absurd hf (by omega)
    | succ g =>
      have hshape : dumpStr k ++ (':' :: ' ' :: (dumps ind lvl v ++
          (dumpsObj ind lvl ([] : List (List Char × JValue)) ++
            ('\n' :: (spaces m ++ ('}' :: rest))))))
          = '"' :: (escString k ++ ('"' :: (':' :: ' ' :: (dumps ind lvl v ++
              ('\n' :: (spaces m ++ ('}' :: rest))))))) := by
        simp [dumpStr, dumpsObj, List.append_assoc]
      rw [hshape]
      simp only [parseObjItems]
      rw [parseStringBody_escString]
      have hsk1 : skipWs (':' :: ' ' :: (dumps ind lvl v ++
          ('\n' :: (spaces m ++ ('}' :: rest)))))
          = ':' :: ' ' :: (dumps ind lvl v ++ ('\n' :: (spaces m ++ ('}' :: rest)))) :=
        skipWs_cons_nonWs (by decide) _
      have hsk2 : skipWs (' ' :: (dumps ind lvl v ++ ('\n' :: (spaces m ++ ('}' :: rest)))))
          = dumps ind lvl v ++ ('\n' :: (spaces m ++ ('}' :: rest))) := by
        rw [skipWs_cons_ws (by decide), skipWs_dumps_append]
      have hv := hRT (k, v) (by simp) ind lvl g ('\n' :: (spaces m ++ ('}' :: rest)))
        ⟨by decide, by decide, by decide, by decide⟩ (by show fuelV v ≤ g; omega)
      have hsk3 : skipWs ('\n' :: (spaces m ++ ('}' :: rest))) = '}' :: rest := by
        rw [skipWs_newline_pad, skipWs_cons_nonWs (by decide)]
      simp [hsk1, hsk2, hsk3, hv]
  | cons e es ih =>
    intro k v fuel rest hRT hstop hf
    cases fuel with
    | zero => exact absurd hf (by omega)
    | succ g =>
      rw [show dumpStr k = '"' :: (escString k ++ ['"']) from rfl]
      simp only [dumpsObj, List.cons_append, List.append_assoc, List.nil_append]
      simp only [parseObjItems]
      rw [parseStringBody_escString]
      have hsk1 : ∀ t : List Char, skipWs (':' :: t) = ':' :: t :=
        fun t => skipWs_cons_nonWs (by decide) t
      have hsk2 : ∀ W : List Char,
          skipWs (' ' :: (dumps ind lvl v ++ W)) = dumps ind lvl v ++ W := by
        intro W
        rw [skipWs_cons_ws (by decide), skipWs_dumps_append]
      have hv : ∀ W : List Char, numStop W →
          parseVal g (dumps ind lvl v ++ W) = .ok (v, W) :=
        fun W hW => hRT (k, v) (by simp) ind lvl g W hW (by show fuelV v ≤ g; omega)
      have hskC : ∀ t : List Char, skipWs (',' :: t) = ',' :: t :=
        fun t => skipWs_cons_nonWs (by decide) t
      have hsk4 : ∀ X : List Char,
          skipWs ('\n' :: (spaces (ind * lvl) ++ (dumpStr e.1 ++ X))) = dumpStr e.1 ++ X := by
        intro X
        rw [skipWs_newline_pad]
        rw [show dumpStr e.1 = '"' :: (escString e.1 ++ ['"']) from rfl]
        rw [List.cons_append, skipWs_cons_nonWs (by decide)]
      have hih := ih e.1 e.2 g rest (fun z hz => hRT z (by simp at hz ⊢; tauto)) hstop
        (by simp only [fuelObj] at hf; omega)
      have hvc : ∀ t : List Char,
          parseVal g (dumps ind lvl v ++ (',' :: t)) = .ok (v, ',' :: t) :=
        fun t => hv (',' :: t) ⟨by decide, by decide, by decide, by decide⟩
      simp only [hsk1, hsk2]
      rw [hvc]
      simp [hskC, hsk4, hih]

/-- The array branch of `parseVal`, isolated. -/
theorem parseVal_lbracket (g : Nat) (r : List Char) :
    parseVal (g + 1) ('[' :: r) =
      (match skipWs r with
       | [] => .error ('E' :: "xpecting value".toList)
       | c1 :: r1 =>
           if c1 = ']' then .ok (.arr [], r1)
           else
             match parseArrItems g (c1 :: r1) with
             | .ok (xs, r2) => .ok (.arr xs, r2)
             | .error e => .error e) := by
  simp only [parseVal]
  rw [if_neg (show ¬ (('[' : Char) = '"') by decide)]
  simp only [if_true]

/-- The object branch of `parseVal`, isolated. -/
theorem parseVal_lbrace (g : Nat) (r : List Char) :
    parseVal (g + 1) ('{' :: r) =
      (match skipWs r with
       | [] => .error ('E' :: "xpecting value".toList)
       | c1 :: r1 =>
           if c1 = '}' then .ok (.obj [], r1)
           else
             match parseObjItems g (c1 :: r1) with
             | .ok (kvs, r2) => .ok (.obj kvs, r2)
             | .error e => .error e) := by
  simp only [parseVal]
  rw [if_neg (show ¬ (('{' : Char) = '"') by decide)]
  rw [if_neg (show ¬ (('{' : Char) = '[') by decide)]
  simp only [if_true]

theorem parseVal_dumps : ∀ v : JValue, RT v := by
  intro v
  induction v using JValue.inductionOn with
  | hnull =>
    intro ind lvl fuel rest hstop hf
    cases fuel with
    | zero => exact absurd hf (by simp [fuelV])
    | succ g =>
      rw [show dumps ind lvl JValue.null = ['n', 'u', 'l', 'l'] from rfl]
      simp only [List.cons_append, List.nil_append]
      simp only [parseVal]
      simp
  | hbool b =>
    intro ind lvl fuel rest hstop hf
    cases fuel with
    | zero => exact absurd hf (by simp [fuelV])
    | succ g =>
      cases b
      · rw [show dumps ind lvl (JValue.bool false) = ['f', 'a', 'l', 's', 'e'] from rfl]
        simp only [List.cons_append, List.nil_append]
        simp only [parseVal]
        simp
      · rw [show dumps ind lvl (JValue.bool true) = ['t', 'r', 'u', 'e'] from rfl]
        simp only [List.cons_append, List.nil_append]
        simp only [parseVal]
        simp
  | hint n =>
    intro ind lvl fuel rest hstop hf
    cases fuel with
    | zero => exact absurd hf (by simp [fuelV])
    | succ g => exact parseVal_int g n hstop
  | hstr s =>
    intro ind lvl fuel rest hstop hf
    cases fuel with
    | zero => exact absurd hf (by simp [fuelV])
    | succ g =>
      rw [show dumps ind lvl (JValue.str s) = '"' :: (escString s ++ ['"']) from rfl]
      simp only [List.cons_append, List.append_assoc, List.nil_append]
      simp only [parseVal]
      simp [parseStringBody_escString]
  | harr xs hmem =>
    intro ind lvl fuel rest hstop hf
    cases fuel with
    | zero => exact absurd hf (by simp [fuelV])
    | succ g =>
      cases xs with
      | nil =>
        rw [show dumps ind lvl (JValue.arr []) = ['[', ']'] from rfl]
        simp only [List.cons_append, List.nil_append]
        rw [parseVal_lbracket]
        have h1 : skipWs (']' :: rest) = ']' :: rest := skipWs_cons_nonWs (by decide) rest
        simp [h1]
      | cons x xs' =>
        rw [show dumps ind lvl (JValue.arr (x :: xs'))
            = '[' :: '\n' :: spaces (ind * (lvl + 1)) ++ dumps ind (lvl + 1) x
              ++ dumpsArr ind (lvl + 1) xs' ++ '\n' :: spaces (ind * lvl) ++ [']']
            from rfl]
        simp only [List.cons_append, List.append_assoc, List.nil_append]
        rw [parseVal_lbracket]
        have hsk : skipWs ('\n' :: (spaces (ind * (lvl + 1)) ++ (dumps ind (lvl + 1) x
            ++ (dumpsArr ind (lvl + 1) xs' ++ '\n' :: (spaces (ind * lvl) ++ ']' :: rest)))))
            = dumps ind (lvl + 1) x ++ (dumpsArr ind (lvl + 1) xs'
              ++ '\n' :: (spaces (ind * lvl) ++ ']' :: rest)) := by
          rw [skipWs_newline_pad, skipWs_dumps_append]
        obtain ⟨c0, t0, hct, hws, hne⟩ := dumps_head ind (lvl + 1) x
        have hitems := parseArrItems_dumps ind (lvl + 1) (ind * lvl) xs' x g rest hmem
          hstop (by simp only [fuelV, fuelArr] at hf; omega)
        rw [hsk, hct, List.cons_append]
        simp only [hne, if_false, reduceCtorEq]
        rw [← List.cons_append, ← hct, hitems]
  | hobj kvs hmem =>
    intro ind lvl fuel rest hstop hf
    cases fuel with
    | zero => exact absurd hf (by simp [fuelV])
    | succ g =>
      cases kvs with
      | nil =>
        rw [show dumps ind lvl (JValue.obj []) = ['{', '}'] from rfl]
        simp only [List.cons_append, List.nil_append]
        rw [parseVal_lbrace]
        have h1 : skipWs ('}' :: rest) = '}' :: rest := skipWs_cons_nonWs (by decide) rest
        simp [h1]
      | cons kv kvs' =>
        rw [show dumps ind lvl (JValue.obj (kv :: kvs'))
            = '{' :: '\n' :: spaces (ind * (lvl + 1)) ++ dumpStr kv.1 ++ ':' :: ' ' ::
              dumps ind (lvl + 1) kv.2 ++ dumpsObj ind (lvl + 1) kvs'
              ++ '\n' :: spaces (ind * lvl) ++ ['}']
            from rfl]
        simp only [List.cons_append, List.append_assoc, List.nil_append]
        rw [parseVal_lbrace]
        have hsk : skipWs ('\n' :: (spaces (ind * (lvl + 1)) ++ (dumpStr kv.1
            ++ (':' :: ' ' :: (dumps ind (lvl + 1) kv.2 ++ (dumpsObj ind (lvl + 1) kvs'
              ++ '\n' :: (spaces (ind * lvl) ++ '}' :: rest)))))))
            = dumpStr kv.1 ++ (':' :: ' ' :: (dumps ind (lvl + 1) kv.2
              ++ (dumpsObj ind (lvl + 1) kvs'
                ++ '\n' :: (spaces (ind * lvl) ++ '}' :: rest)))) := by
          rw [skipWs_newline_pad]
          rw [show dumpStr kv.1 = '"' :: (escString kv.1 ++ ['"']) from rfl]
          rw [List.cons_append, skipWs_cons_nonWs (by decide)]
        have hitems := parseObjItems_dumps ind (lvl + 1) (ind * lvl) kvs' kv.1 kv.2 g rest
          hmem hstop (by simp only [fuelV, fuelObj] at hf; omega)
        rw [hsk]
        rw [show dumpStr kv.1 = '"' :: (escString kv.1 ++ ['"']) from rfl, List.cons_append]
        have hcq := eq_false (show ¬ (('"' : Char) = '}') by decide)
        simp only [hcq, if_false]
        rw [← List.cons_append,
          show '"' :: (escString kv.1 ++ ['"']) = dumpStr kv.1 from rfl, hitems]

theorem fuelArr_le_len (l : List JValue)
    (hm : ∀ y ∈ l, ∀ ind lvl : Nat, fuelV y ≤ (dumps ind lvl y).length) :
    ∀ ind lvl : Nat, fuelArr l ≤ (dumpsArr ind lvl l).length := by
  induction l with
  | nil => intro ind lvl; simp [fuelArr, dumpsArr]
  | cons y ys ih =>
    intro ind lvl
    have h1 := hm y (by simp) ind lvl
    have h2 := ih (fun z hz => hm z (by simp [hz])) ind lvl
    simp only [fuelArr, dumpsArr, List.length_cons, List.length_append]
    omega

theorem fuelObj_le_len (l : List (List Char × JValue))
    (hm : ∀ e ∈ l, ∀ ind lvl : Nat, fuelV e.2 ≤ (dumps ind lvl e.2).length) :
    ∀ ind lvl : Nat, fuelObj l ≤ (dumpsObj ind lvl l).length := by
  induction l with
  | nil => intro ind lvl; simp [fuelObj, dumpsObj]
  | cons e es ih =>
    intro ind lvl
    have h1 := hm e (by simp) ind lvl
    have h2 := ih (fun z hz => hm z (by simp [hz])) ind lvl
    simp only [fuelObj, dumpsObj, List.length_cons, List.length_append]
    omega

theorem fuelV_le_len : ∀ (v : JValue) (ind lvl : Nat),
    fuelV v ≤ (dumps ind lvl v).length := by
  intro v
  induction v using JValue.inductionOn with
  | hnull => intro ind lvl; simp [fuelV, dumps]
  | hbool b => intro ind lvl; cases b <;> simp [fuelV, dumps]
  | hint n =>
    intro ind lvl
    show fuelV (.int n) ≤ (intRepr n).length
    cases n with
    | ofNat m =>
      have : natToChars m ≠ [] := natToChars_ne_nil
      have := List.length_pos.mpr this
      simp only [fuelV, intRepr]
      omega
    | negSucc m => simp [fuelV, intRepr]
  | hstr s => intro ind lvl; simp [fuelV, dumps, dumpStr]
  | harr xs hmem =>
    intro ind lvl
    cases xs with
    | nil => simp [fuelV, fuelArr, dumps]
    | cons x xs' =>
      have h1 := hmem x (by simp) ind (lvl + 1)
      have h2 := fuelArr_le_len xs' (fun z hz => hmem z (by simp [hz])) ind (lvl + 1)
      simp only [fuelV, fuelArr, dumps, List.length_cons, List.length_append]
      omega
  | hobj kvs hmem =>
    intro ind lvl
    cases kvs with
    | nil => simp [fuelV, fuelObj, dumps]
    | cons kv kvs' =>
      have h1 := hmem kv (by simp) ind (lvl + 1)
      have h2 := fuelObj_le_len kvs' (fun z hz => hmem z (by simp [hz])) ind (lvl + 1)
      simp only [fuelV, fuelObj, dumps, List.length_cons, List.length_append]
      omega

/-- The round trip at the heart of claim C5: decoding a serialized value
with the `json.loads` model recovers the value exactly, for any indentation
width. -/
theorem json_loads_dumps (ind : Nat) (v : JValue) :
    json_loads (dumps ind 0 v) = .ok v := by
  unfold json_loads
  have h0 : skipWs (dumps ind 0 v) = dumps ind 0 v := by
    have := skipWs_dumps_append ind 0 v []
    simpa using this
  rw [h0]
  have hp := parseVal_dumps v ind 0 ((dumps ind 0 v).length + 1) [] (by trivial)
    (by have := fuelV_le_len v ind 0; omega)
  rw [List.append_nil] at hp
  rw [hp]
  simp [skipWs]

/-! ## Engine lemmas: the undefined-value policies -/

theorem evalE_chain_of_undef : ∀ (steps : List Step) (env : List (List Char × JValue))
    (root : Expr), evalE .lenient env root = .ok .undef →
    evalE .lenient env (chainOf root steps) = .ok .undef := by
  intro steps
  induction steps with
  | nil => intro env root h; exact h
  | cons st rest ih =>
    intro env root h
    cases st with
    | attr a =>
      show evalE .lenient env (chainOf (.getattr root a) rest) = .ok .undef
      exact ih env (.getattr root a) (by simp [evalE, h, access])
    | item k =>
      show evalE .lenient env (chainOf (.getitem root k) rest) = .ok .undef
      exact ih env (.getitem root k) (by simp [evalE, h, access])

theorem evalE_chain_missing (steps : List Step) (env : List (List Char × JValue))
    (n : String) (h : lookupKey env n.toList = none) :
    evalE .lenient env (chainOf (.var n) steps) = .ok .undef := by
  have h' : lookupKey env n.data = none := h
  exact evalE_chain_of_undef steps env (.var n) (by simp [evalE, h'])

theorem evalE_chain_of_error : ∀ (steps : List Step) (env : List (List Char × JValue))
    (root : Expr) (msg : List Char), evalE .strict env root = .error msg →
    evalE .strict env (chainOf root steps) = .error msg := by
  intro steps
  induction steps with
  | nil => intro env root msg h; exact h
  | cons st rest ih =>
    intro env root msg h
    cases st with
    | attr a => exact ih env (.getattr root a) msg (by simp [evalE, h])
    | item k => exact ih env (.getitem root k) msg (by simp [evalE, h])

theorem evalE_chain_missing_strict (steps : List Step) (env : List (List Char × JValue))
    (n : String) (h : lookupKey env n.toList = none) :
    evalE .strict env (chainOf (.var n) steps) = .error (undefinedMsg n) := by
  have h' : lookupKey env n.data = none := h
  exact evalE_chain_of_error steps env (.var n) (undefinedMsg n) (by simp [evalE, h'])

theorem evalE_strict_ok : ∀ (e : Expr) (env : List (List Char × JValue)) (r : RValue),
    evalE .strict env e = .ok r → evalE .lenient env e = .ok r ∧ r ≠ .undef := by
  intro e
  induction e with
  | var n =>
    intro env r h
    simp only [evalE] at h ⊢
    cases hl : lookupKey env n.toList with
    | some v => rw [hl] at h; simp at h; simp [← h]
    | none => rw [hl] at h; simp at h
  | getattr e a ih =>
    intro env r h
    simp only [evalE] at h ⊢
    cases he : evalE .strict env e with
    | error m => rw [he] at h; simp at h
    | ok u =>
      rw [he] at h
      obtain ⟨hlen, hne⟩ := ih env u he
      rw [hlen]
      cases u with
      | undef => exact absurd rfl hne
      | val w =>
        cases w with
        | obj kvs =>
          simp only [access] at h ⊢
          cases hk : lookupKey kvs a.toList with
          | some v => rw [hk] at h; simp at h; simp [← h]
          | none => rw [hk] at h; simp at h
        | null => simp [access] at h
        | bool b => simp [access] at h
        | int n => simp [access] at h
        | str s => simp [access] at h
        | arr xs => simp [access] at h
  | getitem e k ih =>
    intro env r h
    simp only [evalE] at h ⊢
    cases he : evalE .strict env e with
    | error m => rw [he] at h; simp at h
    | ok u =>
      rw [he] at h
      obtain ⟨hlen, hne⟩ := ih env u he
      rw [hlen]
      cases u with
      | undef => exact absurd rfl hne
      | val w =>
        cases w with
        | obj kvs =>
          simp only [access] at h ⊢
          cases hk : lookupKey kvs k.toList with
          | some v => rw [hk] at h; simp at h; simp [← h]
          | none => rw [hk] at h; simp at h
        | null => simp [access] at h
        | bool b => simp [access] at h
        | int n => simp [access] at h
        | str s => simp [access] at h
        | arr xs => simp [access] at h
  | filterLength e ih =>
    intro env r h
    simp only [evalE] at h ⊢
    cases he : evalE .strict env e with
    | error m => rw [he] at h; simp at h
    | ok u =>
      rw [he] at h
      obtain ⟨hlen, hne⟩ := ih env u he
      rw [hlen]
      refine ⟨h, ?_⟩
      cases u with
      | undef => exact absurd rfl hne
      | val w =>
        cases w with
        | null => simp at h
        | bool b2 => simp at h
        | int n2 => simp at h
        | str s2 => simp at h; subst h; simp
        | arr xs => simp at h; subst h; simp
        | obj kvs => simp at h; subst h; simp
  | filterToJson e ind ih =>
    intro env r h
    simp only [evalE] at h ⊢
    cases he : evalE .strict env e with
    | error m => rw [he] at h; simp at h
    | ok u =>
      rw [he] at h
      obtain ⟨hlen, _⟩ := ih env u he
      rw [hlen]
      refine ⟨h, ?_⟩
      simp at h
      subst h
      simp

theorem loopRender_congr {f g : JValue → Except (List Char) (List Char)}
    (hfg : ∀ v s, f v = .ok s → g v = .ok s) :
    ∀ (items : List JValue) (s : List Char),
      loopRender f items = .ok s → loopRender g items = .ok s := by
  intro items
  induction items with
  | nil => intro s h; simpa [loopRender] using h
  | cons v vs ih =>
    intro s h
    simp only [loopRender] at h ⊢
    cases hv : f v with
    | error m => rw [hv] at h; simp at h
    | ok sv =>
      rw [hv] at h
      rw [hfg v sv hv]
      cases hr : loopRender f vs with
      | error m => rw [hr] at h; simp at h
      | ok sr => rw [hr] at h; rw [ih sr hr]; exact h

theorem renderNode_strict_ok : ∀ (t : Node) (env : List (List Char × JValue)) (s : List Char),
    renderNode .strict t env = .ok s → renderNode .lenient t env = .ok s := by
  intro t
  induction t with
  | text s' => intro env s h; simpa [renderNode] using h
  | output e =>
    intro env s h
    simp only [renderNode] at h ⊢
    cases he : evalE .strict env e with
    | error m => rw [he] at h; simp at h
    | ok r =>
      rw [he] at h
      rw [(evalE_strict_ok e env r he).1]
      exact h
  | seq a b iha ihb =>
    intro env s h
    simp only [renderNode] at h ⊢
    cases ha : renderNode .strict a env with
    | error m => rw [ha] at h; simp at h
    | ok sa =>
      rw [ha] at h
      rw [iha env sa ha]
      cases hb : renderNode .strict b env with
      | error m => rw [hb] at h; simp at h
      | ok sb => rw [hb] at h; rw [ihb env sb hb]; exact h
  | forIn x e body ih =>
    intro env s h
    simp only [renderNode] at h ⊢
    cases he : evalE .strict env e with
    | error m => rw [he] at h; simp at h
    | ok r =>
      rw [he] at h
      obtain ⟨hlen, hne⟩ := evalE_strict_ok e env r he
      rw [hlen]
      cases r with
      | undef => exact absurd rfl hne
      | val w =>
        have hio : iterOf Policy.strict (.val w) = iterOf Policy.lenient (.val w) := by
          cases w <;> rfl
        simp only [hio] at h
        cases hi : iterOf Policy.lenient (.val w) with
        | error m => simp only [hi] at h; simp at h
        | ok items =>
          simp only [hi] at h ⊢
          exact loopRender_congr (fun v sv hv => ih ((x.toList, v) :: env) sv hv) items s h

theorem renderNode_error_of_contains :
    ∀ (p : Policy) (t : Node) (env : List (List Char × JValue)) (e : Expr) (msg : List Char),
      containsOut t e = true → evalE p env e = .error msg →
      ∃ m, renderNode p t env = .error m := by
  intro p t
  induction t with
  | text s => intro env e msg hc _; simp [containsOut] at hc
  | output e' =>
    intro env e msg hc he
    simp only [containsOut, decide_eq_true_eq] at hc
    subst hc
    exact ⟨msg, by simp [renderNode, he]⟩
  | seq a b iha ihb =>
    intro env e msg hc he
    simp only [containsOut, Bool.or_eq_true] at hc
    cases ha : renderNode p a env with
    | error m => exact ⟨m, by simp [renderNode, ha]⟩
    | ok sa =>
      rcases hc with hc | hc
      · obtain ⟨m, hm⟩ := iha env e msg hc he
        rw [ha] at hm
        exact absurd hm (by simp)
      · obtain ⟨m, hm⟩ := ihb env e msg hc he
        exact ⟨m, by simp [renderNode, ha, hm]⟩
  | forIn x e' body ih =>
    intro env e msg hc he
    simp only [containsOut, decide_eq_true_eq] at hc
    subst hc
    exact ⟨msg, by simp [renderNode, he]⟩

/-! ## The claims -/

/-- C1: `load_data`'s decode phase follows the fixed sequential order: a
content that the JSON decoder accepts is returned as its JSON decoding and
the result does not depend on the YAML decoder at all (the fallback is never
invoked); if and only if JSON decoding fails, the YAML decoder runs on the
same content and its success is returned; when both fail, the single
combined data-format error is reported and the process exits with status 1,
producing no structured value and no output. -/
theorem C1_decode_order :
    (∀ (content : List Char) (v : JValue), json_loads content = .ok v →
       ∀ y1 y2 : List Char → Except (List Char) JValue,
         parse_content y1 content = .ok v ∧
           parse_content y1 content = parse_content y2 content) ∧
    (∀ (content e : List Char) (y : List Char → Except (List Char) JValue) (w : JValue),
       json_loads content = .error e → y content = .ok w →
         parse_content y content = .ok w) ∧
    (∀ (content e ey : List Char) (y : List Char → Except (List Char) JValue),
       json_loads content = .error e → y content = .error ey →
         parse_content y content = .error (.parseErr ey)) ∧
    (∀ (args : Args) (fs : List (String × List Char)) (stdin content : List Char)
       (tmplSrc : Option (Except (List Char) Node))
       (y : List Char → Except (List Char) JValue) (e ey : List Char),
       readSource fs stdin args.data = .ok content →
       json_loads content = .error e → y content = .error ey →
       runMain args fs stdin tmplSrc y = ⟨1, [], dataParseMsg ey, []⟩) := by
  refine ⟨?_, ?_, ?_, ?_⟩
  · intro content v hj y1 y2
    constructor <;> simp [parse_content, hj]
  · intro content e y w hj hy
    simp [parse_content, hj, hy]
  · intro content e ey y hj hy
    simp [parse_content, hj, hy]
  · intro args fs stdin content tmplSrc y e ey hread hj hy
    simp [runMain, load_data, hread, parse_content, hj, hy]

/-- Witness for C1 at concrete inputs: `"[1]"` is decoded as JSON no matter
what the YAML decoder would say; `"nope"` falls through to the YAML result;
and when both decoders reject, the pipeline exits 1 with the single combined
message and no output. -/
theorem C1_decode_order_witness :
    parse_content (fun _ => .ok .null) ('[' :: '1' :: [']']) = .ok (.arr [.int 1]) ∧
    parse_content (fun _ => .ok (.int 7)) ('n' :: 'o' :: 'p' :: ['e']) = .ok (.int 7) ∧
    parse_content (fun _ => .error ['y']) ('n' :: 'o' :: 'p' :: ['e'])
      = .error (.parseErr ['y']) ∧
    runMain ⟨"t.md", some "d.json", none, false, false⟩
        [("d.json", 'n' :: 'o' :: 'p' :: ['e'])] [] (some (.ok (.text [])))
        (fun _ => .error ['y'])
      = ⟨1, [], dataParseMsg ['y'], []⟩ := by
  refine ⟨(C1_decode_order.1 ('[' :: '1' :: [']']) (.arr [.int 1]) rfl
      (fun _ => .ok .null) (fun _ => .ok .null)).1,
    C1_decode_order.2.1 _ ('E' :: "xpecting value".toList) _ (.int 7) rfl rfl,
    C1_decode_order.2.2.1 _ ('E' :: "xpecting value".toList) ['y'] _ rfl rfl,
    C1_decode_order.2.2.2 ⟨"t.md", some "d.json", none, false, false⟩ _ _ _ _ _
      ('E' :: "xpecting value".toList) ['y'] rfl rfl rfl⟩

/-- C2: every operation of the `OptionalUndefined` marker is absorbing —
stringification and `repr` give the empty string, boolean coercion `False`,
length `0`, iteration the empty sequence, and indexing/attribute access the
marker itself; consequently, under the lenient policy any access chain
rooted at a missing name evaluates to the marker, and rendering an output,
a `length` filter, or a `for` loop over such a chain completes without an
error, substituting the absorbing result (`""`, `0`, no iterations). -/
theorem C2_undefined_marker_absorbing :
    (∀ (u : OptionalUndefined) (k : JValue) (nm : String),
       u.str = [] ∧ u.reprStr = [] ∧ u.bool = false ∧ u.len = 0 ∧ u.iter = [] ∧
       u.getitem k = u ∧ u.getattr nm = u) ∧
    (∀ (env : List (List Char × JValue)) (n : String) (steps : List Step),
       lookupKey env n.toList = none →
       evalE .lenient env (chainOf (.var n) steps) = .ok .undef ∧
       renderNode .lenient (.output (chainOf (.var n) steps)) env = .ok [] ∧
       renderNode .lenient (.output (.filterLength (chainOf (.var n) steps))) env
         = .ok ['0'] ∧
       ∀ (x : String) (body : Node),
         renderNode .lenient (.forIn x (chainOf (.var n) steps) body) env = .ok []) := by
  refine ⟨fun u k nm => ⟨rfl, rfl, rfl, rfl, rfl, rfl, rfl⟩, ?_⟩
  intro env n steps h
  have hc := evalE_chain_missing steps env n h
  refine ⟨hc, ?_, ?_, ?_⟩
  · simp [renderNode, hc, printR]
  · simp [renderNode, evalE, hc, printR, pyStr]
    rfl
  · intro x body
    simp [renderNode, hc, iterOf, loopRender]

/-- Witness for C2 at a concrete environment and chain: `missing.a["b"]`
with only `present` bound. -/
theorem C2_undefined_marker_absorbing_witness :
    evalE .lenient [("present".toList, .int 1)] (chainOf (.var "missing")
        [.attr "a", .item "b"]) = .ok .undef ∧
    renderNode .lenient (.output (chainOf (.var "missing") [.attr "a", .item "b"]))
        [("present".toList, .int 1)] = .ok [] ∧
    renderNode .lenient (.forIn "x" (chainOf (.var "missing") [.attr "a", .item "b"])
        (.output (.var "x"))) [("present".toList, .int 1)] = .ok [] := by
  have h := C2_undefined_marker_absorbing.2 [("present".toList, .int 1)] "missing"
    [.attr "a", .item "b"] rfl
  exact ⟨h.1, h.2.1, h.2.2.2 "x" (.output (.var "x"))⟩

/-- C3: a named data-source file that does not exist makes `load_data` fail
with the uncaught `FileNotFoundError` — an error distinct from the parse
failure by construction — before any decode attempt (the result does not
depend on either decoder), and the process terminates with exit status 1
carrying the traceback on the diagnostic stream, producing no output. -/
theorem C3_missing_data_file :
    ∀ (fs : List (String × List Char)) (stdin : List Char) (p : String),
      p ≠ "-" → List.lookup p fs = none →
      (∀ y : List Char → Except (List Char) JValue,
         load_data y fs stdin (some p) = .error (.fileNotFound p)) ∧
      (∀ m : List Char, (LoadErr.fileNotFound p) ≠ .parseErr m) ∧
      (∀ (args : Args) (tmplSrc : Option (Except (List Char) Node))
         (y : List Char → Except (List Char) JValue), args.data = some p →
         runMain args fs stdin tmplSrc y = ⟨1, [], tracebackMsg p, []⟩) := by
  intro fs stdin p hdash hfs
  refine ⟨?_, fun m => by simp, ?_⟩
  · intro y
    simp [load_data, readSource, hdash, hfs]
  · intro args tmplSrc y hdata
    simp [runMain, load_data, readSource, hdash, hfs, hdata]

/-- Witness for C3: looking up `missing.json` in an empty file system. -/
theorem C3_missing_data_file_witness :
    load_data (fun _ => .ok .null) [] [] (some "missing.json")
      = .error (.fileNotFound "missing.json") ∧
    runMain ⟨"t.md", some "missing.json", none, false, false⟩ [] []
        (some (.ok (.text []))) (fun _ => .ok .null)
      = ⟨1, [], tracebackMsg "missing.json", []⟩ := by
  have h := C3_missing_data_file [] [] "missing.json" (by decide) rfl
  exact ⟨h.1 _, h.2.2 ⟨"t.md", some "missing.json", none, false, false⟩
    (some (.ok (.text []))) _ rfl⟩

/-- C4: the `tojson` filter turns the Undefined Marker into exactly the text
`null`; any other value is serialized as `json.dumps(value, indent,
ensure_ascii=False)` (default indentation 2 is the declared default of the
filter); and the serialization preserves every character that is not the
quote, the backslash or a control character — in particular all non-ASCII
characters — verbatim, with strings escaped exactly character by
character. -/
theorem C4_tojson_filter :
    (∀ indent : Nat, to_json .undef indent = 'n' :: "ull".toList) ∧
    (∀ (v : JValue) (indent : Nat), to_json (.val v) indent = dumps indent 0 v) ∧
    (∀ c : Char, 32 ≤ c.toNat → c ≠ '"' → c ≠ '\\' → escChar c = [c]) ∧
    (∀ (s : List Char) (indent : Nat),
       to_json (.val (.str s)) indent = '"' :: (s.flatMap escChar ++ ['"'])) := by
  refine ⟨fun _ => rfl, fun v _ => rfl, ?_, fun s _ => rfl⟩
  intro c h32 hq hb
  have h : ¬ c.toNat < 32 := by omega
  simp [escChar, hq, hb, h]

/-- Witness for C4: the non-ASCII character `é` is preserved unescaped. -/
theorem C4_tojson_filter_witness :
    escChar 'é' = ['é'] ∧ to_json .undef 2 = 'n' :: "ull".toList := by
  exact ⟨C4_tojson_filter.2.2.1 'é' (by decide) (by decide) (by decide),
    C4_tojson_filter.1 2⟩

/-- C5: rendering `{{ data | tojson }}` with `data` bound to any structured
value `V` produces the `json.dumps` serialization of `V`, and decoding that
rendered fragment as JSON reproduces `V` exactly.  (A `JValue` contains no
Undefined Marker by construction, so the side condition of the claim is
implicit in the type.) -/
theorem C5_tojson_round_trip :
    ∀ V : JValue,
      renderNode .lenient (.output (.filterToJson (.var "data") 2))
          [("data".toList, V)] = .ok (dumps 2 0 V) ∧
      json_loads (dumps 2 0 V) = .ok V := by
  intro V
  refine ⟨?_, json_loads_dumps 2 V⟩
  simp [renderNode, evalE, lookupKey, List.lookup, printR, pyStr, to_json]

/-- C6: under the strict policy, a template that evaluates an access chain
rooted at a name missing from the top-level data fails: the chain itself
evaluates to the undefined-reference error naming the missing variable, and
the whole invocation exits with status 1, a render-error diagnostic on
stderr, and nothing committed to stdout or the output file. -/
theorem C6_strict_missing_reference :
    ∀ (args : Args) (fs : List (String × List Char)) (stdin : List Char) (t : Node)
      (kvs : List (List Char × JValue)) (y : List Char → Except (List Char) JValue)
      (n : String) (steps : List Step),
      args.strict = true →
      load_data y fs stdin args.data = .ok (.obj kvs) →
      lookupKey kvs n.toList = none →
      containsOut t (chainOf (.var n) steps) = true →
      evalE .strict kvs (chainOf (.var n) steps) = .error (undefinedMsg n) ∧
      ∃ m, runMain args fs stdin (some (.ok t)) y = ⟨1, [], renderErrMsg m, []⟩ := by
  intro args fs stdin t kvs y n steps hstrict hload hmiss hcont
  have hchain := evalE_chain_missing_strict steps kvs n hmiss
  refine ⟨hchain, ?_⟩
  obtain ⟨m, hm⟩ := renderNode_error_of_contains .strict t kvs _ _ hcont hchain
  refine ⟨m, ?_⟩
  have hpol : selectPolicy args.strict = .strict := by rw [hstrict]; rfl
  simp [runMain, hload, render_template, hpol, hm]

/-- Witness for C6: strict mode, data `{}`, template `{{ user.email }}`. -/
theorem C6_strict_missing_reference_witness :
    evalE .strict [] (chainOf (.var "user") [.attr "email"])
      = .error (undefinedMsg "user") ∧
    ∃ m, runMain ⟨"t.md", some "d.json", none, false, true⟩
        [("d.json", '{' :: ['}'])] []
        (some (.ok (.output (chainOf (.var "user") [.attr "email"]))))
        (fun _ => .error [])
      = ⟨1, [], renderErrMsg m, []⟩ :=
  C6_strict_missing_reference ⟨"t.md", some "d.json", none, false, true⟩
    [("d.json", '{' :: ['}'])] [] (.output (chainOf (.var "user") [.attr "email"]))
    [] (fun _ => .error []) "user" [.attr "email"] rfl rfl rfl (by decide)

/-- C7: a template whose strict-mode render succeeds — that is, one that
references only present names and attributes, so no undefined value is ever
touched — renders to the same output under the lenient policy. -/
theorem C7_strict_lenient_agree :
    ∀ (t : Node) (env : List (List Char × JValue)) (s : List Char),
      renderNode .strict t env = .ok s → renderNode .lenient t env = .ok s :=
  renderNode_strict_ok

/-- Witness for C7: `Hello {{ name }}` with `name` bound renders identically
under both policies. -/
theorem C7_strict_lenient_agree_witness :
    renderNode .lenient (.seq (.text ('H' :: "i ".toList)) (.output (.var "name")))
        [("name".toList, .str ('A' :: "da".toList))]
      = .ok ('H' :: "i Ada".toList) :=
  C7_strict_lenient_agree _ _ _ rfl

/-- C8: with `--validate-only`, no run ever writes to the output file or to
stdout, and the exit status is 0 exactly when the same invocation without
`--validate-only` would have exited 0 (i.e. when the render would have
succeeded). -/
theorem C8_validate_only :
    ∀ (tmplPath : String) (dataSrc outPath : Option String) (strict : Bool)
      (fs : List (String × List Char)) (stdin : List Char)
      (tmplSrc : Option (Except (List Char) Node))
      (y : List Char → Except (List Char) JValue),
      (runMain ⟨tmplPath, dataSrc, outPath, true, strict⟩ fs stdin tmplSrc y).stdout = [] ∧
      (runMain ⟨tmplPath, dataSrc, outPath, true, strict⟩ fs stdin tmplSrc y).fileWrites = [] ∧
      ((runMain ⟨tmplPath, dataSrc, outPath, true, strict⟩ fs stdin tmplSrc y).exitCode = 0 ↔
        (runMain ⟨tmplPath, dataSrc, outPath, false, strict⟩ fs stdin tmplSrc y).exitCode = 0) := by
  intro tmplPath dataSrc outPath strict fs stdin tmplSrc y
  cases hload : load_data y fs stdin dataSrc with
  | error e => cases e <;> simp [runMain, hload]
  | ok data =>
    cases tmplSrc with
    | none => simp [runMain, hload]
    | some te =>
      cases te with
      | error e => simp [runMain, hload]
      | ok t =>
        cases hrender : render_template (selectPolicy strict) t data with
        | error e => simp [runMain, hload, hrender]
        | ok result => cases outPath <;> simp [runMain, hload, hrender]

/-- C9 as stated is false: the Rendered Output is NOT always written
verbatim to the chosen sink.  Concretely, a successful render producing
`abc` routed to standard output arrives as `abc` followed by a newline
(`print(result)` appends one), which differs from the rendered text. -/
theorem C9_counterexample :
    render_template .lenient (.text ('a' :: "bc".toList)) (.obj [])
      = .ok ('a' :: "bc".toList) ∧
    runMain ⟨"t.md", some "d.json", none, false, false⟩ [("d.json", '{' :: ['}'])] []
        (some (.ok (.text ('a' :: "bc".toList)))) (fun _ => .error [])
      = ⟨0, 'a' :: "bc\n".toList, [], []⟩ ∧
    ('a' :: "bc\n".toList) ≠ ('a' :: "bc".toList) :=
  ⟨rfl, rfl, by decide⟩

/-- C9 (amended): for every successful render, the rendered text is written
verbatim to the output file when `--output` is given (and stdout stays
empty); without `--output` it is written to stdout with exactly one trailing
newline appended by `print`; in both cases diagnostics go only to the
error stream and the rendered-output stream carries nothing else. -/
theorem C9_output_routing :
    ∀ (args : Args) (fs : List (String × List Char)) (stdin : List Char) (t : Node)
      (y : List Char → Except (List Char) JValue) (result : List Char) (data : JValue),
      load_data y fs stdin args.data = .ok data →
      render_template (selectPolicy args.strict) t data = .ok result →
      args.validateOnly = false →
      (∀ p, args.output = some p →
         runMain args fs stdin (some (.ok t)) y = ⟨0, [], savedMsg p, [(p, result)]⟩) ∧
      (args.output = none →
         runMain args fs stdin (some (.ok t)) y = ⟨0, result ++ ['\n'], [], []⟩) := by
  intro args fs stdin t y result data hload hrender hval
  constructor
  · intro p hp
    simp [runMain, hload, hrender, hval, hp]
  · intro hp
    simp [runMain, hload, hrender, hval, hp]

/-- Witness for C9 (amended): the same render routed to a file arrives
byte-for-byte, with stdout untouched. -/
theorem C9_output_routing_witness :
    runMain ⟨"t.md", some "d.json", some "o.md", false, false⟩
        [("d.json", '{' :: ['}'])] [] (some (.ok (.text ('a' :: "bc".toList))))
        (fun _ => .error [])
      = ⟨0, [], savedMsg "o.md", [("o.md", 'a' :: "bc".toList)]⟩ :=
  (C9_output_routing ⟨"t.md", some "d.json", some "o.md", false, false⟩
    [("d.json", '{' :: ['}'])] [] (.text ('a' :: "bc".toList)) (fun _ => .error [])
    ('a' :: "bc".toList) (.obj []) rfl rfl rfl).1 "o.md" rfl

/-- C10: when the decoded top-level value is not a string-keyed mapping (a
bare array, scalar, or null), `template.render(**data)` raises, the failure
surfaces as a render error, and the invocation exits with status 1 and no
rendered output (whether or not `--validate-only` was given). -/
theorem C10_top_level_not_mapping :
    ∀ (args : Args) (fs : List (String × List Char)) (stdin : List Char) (t : Node)
      (y : List Char → Except (List Char) JValue) (v : JValue),
      load_data y fs stdin args.data = .ok v →
      isMapping v = false →
      runMain args fs stdin (some (.ok t)) y
        = ⟨1, [], renderErrMsg ('r' :: "ender() argument after ** must be a mapping".toList),
            []⟩ := by
  intro args fs stdin t y v hload hnm
  have hrender : render_template (selectPolicy args.strict) t v
      = .error ('r' :: "ender() argument after ** must be a mapping".toList) := by
    cases v with
    | obj kvs => simp [isMapping] at hnm
    | null => rfl
    | bool b => rfl
    | int n => rfl
    | str s => rfl
    | arr xs => rfl
  simp [runMain, hload, hrender]

/-- Witness for C10: a bare JSON array `[1, 2]` as the data source. -/
theorem C10_top_level_not_mapping_witness :
    runMain ⟨"t.md", some "d.json", none, false, false⟩
        [("d.json", '[' :: "1, 2]".toList)] [] (some (.ok (.text ('h' :: ['i']))))
        (fun _ => .error [])
      = ⟨1, [], renderErrMsg ('r' :: "ender() argument after ** must be a mapping".toList),
          []⟩ :=
  C10_top_level_not_mapping ⟨"t.md", some "d.json", none, false, false⟩
    [("d.json", '[' :: "1, 2]".toList)] [] (.text ('h' :: ['i'])) (fun _ => .error [])
    (.arr [.int 1, .int 2]) rfl rfl
